import Mathlib

/-!
Shallow embedding of the compress-csv-img service (src/server.js: the
controller concatenated with the router). The embedding keeps the source
names: `validateCSV`, `uploadDoc`, `createRequest`, `storeProductData`,
`updateRequestStatus`, `processImages`, `compressImage`, `updateImageStatus`,
`getRequestStatus`. External effects are passed in explicitly: network and
clock outcomes as oracles, the database as a value threaded through.
-/

/-- Accumulating splitter behind jsSplitComma, walking the characters. -/
def jsSplitAux (sep : Char) : List Char → List Char → List (List Char)
  | [], acc => [acc.reverse]
  | c :: cs, acc =>
      if c = sep then acc.reverse :: jsSplitAux sep cs []
      else jsSplitAux sep cs (c :: acc)

/-- JS String.split with separator a single comma: note empty input yields
one empty piece and separators at the ends yield empty pieces. -/
def jsSplitComma (s : String) : List String :=
  (jsSplitAux ',' s.data []).map String.mk

/-- JS String.trim: whitespace removed from both ends. -/
def jsTrim (s : String) : String :=
  String.mk
    (((s.data.dropWhile Char.isWhitespace).reverse.dropWhile
        Char.isWhitespace).reverse)

/-- JS String.startsWith. -/
def jsStartsWith (s pre : String) : Bool :=
  s.data.take pre.data.length == pre.data

/-- JS Array.join with the given separator. -/
def jsJoin (sep : String) : List String → String
  | [] => ""
  | [s] => s
  | s :: rest => s ++ sep ++ jsJoin sep rest

/-- One parsed CSV row, with the three columns the controller reads. -/
structure CsvRow where
  sNo : String
  productName : String
  inputImageUrls : String
deriving DecidableEq, Repr

/-- Validity of one row, as computed inside validateCSV: JS truthiness of the
three cells (non-empty string) and every comma-separated URL, once trimmed,
starting with the literal scheme. -/
def rowValid (row : CsvRow) : Bool :=
  row.sNo != "" &&
  row.productName != "" &&
  row.inputImageUrls != "" &&
  (jsSplitComma row.inputImageUrls).all
    (fun url => jsStartsWith (jsTrim url) "https://")

/-- validateCSV on the parsed rows: resolves with the rows when every row is
valid, rejects with the single error message otherwise. -/
def validateCSV (rows : List CsvRow) : Except String (List CsvRow) :=
  if rows.all rowValid then Except.ok rows
  else Except.error "Invalid CSV format or data"

/-- Job status values written by the controller into the requests table. -/
inductive JobStatus where
  | pending
  | processing
  | completed
  | failed
deriving DecidableEq, Repr

/-- Image status values of the images table. The controller only ever writes
completed; failed exists in the schema's value space. -/
inductive ImgStatus where
  | pending
  | completed
  | failed
deriving DecidableEq, Repr

/-- One row of the requests table. -/
structure RequestRow where
  id : Nat
  status : JobStatus
deriving DecidableEq, Repr

/-- One row of the products table. -/
structure ProductRow where
  id : Nat
  requestId : Nat
  serialNumber : String
  productName : String
deriving DecidableEq, Repr

/-- One row of the images table. -/
structure ImageRow where
  productId : Nat
  inputUrl : String
  status : ImgStatus
  outputUrl : Option String
deriving DecidableEq, Repr

/-- The durable store: the three tables plus the id sequences. -/
structure DB where
  nextRequestId : Nat
  nextProductId : Nat
  requests : List RequestRow
  products : List ProductRow
  images : List ImageRow
deriving DecidableEq, Repr

def DB.empty : DB := ⟨0, 0, [], [], []⟩

/-- createRequest: INSERT INTO requests (status) VALUES ('pending')
RETURNING id. -/
def createRequest (db : DB) : DB × Nat :=
  let id := db.nextRequestId
  ({ db with nextRequestId := id + 1,
             requests := db.requests ++ [⟨id, JobStatus.pending⟩] }, id)

/-- The URL list of a row as the controller computes it in both
storeProductData and processImages: split on commas, each part trimmed. -/
def urlsOf (row : CsvRow) : List String :=
  (jsSplitComma row.inputImageUrls).map jsTrim

/-- storeProductData: for each row insert one product and one pending image
per URL of that row. -/
def storeProductData (requestId : Nat) : List CsvRow → DB → DB
  | [], db => db
  | row :: rest, db =>
      let pid := db.nextProductId
      let db' : DB :=
        { db with nextProductId := pid + 1,
                  products := db.products ++
                    [⟨pid, requestId, row.sNo, row.productName⟩],
                  images := db.images ++
                    (urlsOf row).map (fun u => ⟨pid, u, ImgStatus.pending, none⟩) }
      storeProductData requestId rest db'

/-- updateRequestStatus: UPDATE requests SET status = $1 WHERE id = $2. -/
def updateRequestStatus (db : DB) (id : Nat) (s : JobStatus) : DB :=
  let f := fun (r : RequestRow) => if r.id == id then { r with status := s } else r
  { db with requests := db.requests.map f }

/-- updateImageStatus: UPDATE images SET processing_status, output_url WHERE
product_id IN (SELECT id FROM products WHERE request_id = $3)
AND input_url = $4. -/
def updateImageStatus (db : DB) (requestId : Nat) (inputUrl : String)
    (status : ImgStatus) (outputUrl : Option String) : DB :=
  let prodIds := (db.products.filter (fun p => p.requestId == requestId)).map
    (fun p => p.id)
  let f := fun (img : ImageRow) =>
    if prodIds.contains img.productId && img.inputUrl == inputUrl
    then { img with status := status, outputUrl := outputUrl }
    else img
  { db with images := db.images.map f }

/-- getRequestStatus query: SELECT status FROM requests WHERE id = $1, with
empty result meaning not found. -/
def getRequestStatus (db : DB) (id : Nat) : Option JobStatus :=
  (db.requests.find? (fun r => r.id == id)).map (fun r => r.status)

/-- Failure modes of one transformation: the network fetch and the image
re-encode can each reject. -/
inductive TransformError where
  | fetchError
  | encodeError
deriving DecidableEq, Repr

/-- The fabricated output location of compressImage for the millisecond
clock value observed at the call. -/
def mkOutputUrl (t : Nat) : String :=
  "https://compressed-image-url.com/" ++ toString t ++ ".jpg"

/-- compressImage for one call, given the call's external outcome: either the
fetch/encode fails, or it succeeds and the clock reads t, in which case the
placeholder URL built from t is returned. -/
def compressImage (outcome : Except TransformError Nat) :
    Except TransformError String :=
  match outcome with
  | Except.error e => Except.error e
  | Except.ok t => Except.ok (mkOutputUrl t)

/-- State of one background processing run: the store plus the ordered list
of URLs on which the transformer has been invoked so far; the length of the
trace is the index of the next call into the per-call oracle. -/
structure ProcSt where
  db : DB
  trace : List String
deriving DecidableEq, Repr

/-- Inner loop of processImages over the URL list of one row: each URL is
transformed in order; on success the matching images are set completed with
the output URL; a rejection aborts, carrying the state at the abort. -/
def processUrls (orc : Nat → Except TransformError Nat) (requestId : Nat) :
    List String → ProcSt → Except ProcSt (ProcSt × List String)
  | [], st => Except.ok (st, [])
  | url :: rest, st =>
    match compressImage (orc st.trace.length) with
    | Except.error _ => Except.error { st with trace := st.trace ++ [url] }
    | Except.ok outputUrl =>
      let st' : ProcSt :=
        { db := updateImageStatus st.db requestId url ImgStatus.completed
            (some outputUrl),
          trace := st.trace ++ [url] }
      match processUrls orc requestId rest st' with
      | Except.error s => Except.error s
      | Except.ok (s, outs) => Except.ok (s, outputUrl :: outs)

/-- One consolidated result row pushed onto processedData. -/
structure ResultRow where
  sNo : String
  productName : String
  inputImageUrls : String
  outputImageUrls : String
deriving DecidableEq, Repr

/-- Outer loop of processImages over the rows, building processedData. -/
def processRows (orc : Nat → Except TransformError Nat) (requestId : Nat) :
    List CsvRow → ProcSt → Except ProcSt (ProcSt × List ResultRow)
  | [], st => Except.ok (st, [])
  | row :: rest, st =>
    match processUrls orc requestId (urlsOf row) st with
    | Except.error s => Except.error s
    | Except.ok (st', outs) =>
      match processRows orc requestId rest st' with
      | Except.error s => Except.error s
      | Except.ok (st'', rs) =>
        Except.ok (st'', ⟨row.sNo, row.productName, row.inputImageUrls,
          jsJoin ", " outs⟩ :: rs)

/-- processImages: on any rejection inside the loops the catch sets the
request failed; on full success the output CSV is generated (csvOk tells
whether that write succeeds), the request is set completed, and the webhook
notification, whose own errors are swallowed, does not touch the store. -/
def processImages (orc : Nat → Except TransformError Nat) (csvOk : Bool)
    (requestId : Nat) (data : List CsvRow) (db : DB) : ProcSt :=
  match processRows orc requestId data ⟨db, []⟩ with
  | Except.error st =>
      { st with db := updateRequestStatus st.db requestId JobStatus.failed }
  | Except.ok (st, _) =>
      if csvOk then
        { st with db := updateRequestStatus st.db requestId JobStatus.completed }
      else
        { st with db := updateRequestStatus st.db requestId JobStatus.failed }

/-- The flattened URL sequence of a job, in processing order. -/
def flatUrls (rows : List CsvRow) : List String :=
  rows.flatMap urlsOf

/-- One job end to end from an empty store: the ingestion success path
(create request, store rows, set processing) followed by the background
processImages run; returns the final state and the request id. -/
def pipeline (orc : Nat → Except TransformError Nat) (csvOk : Bool)
    (rows : List CsvRow) : ProcSt × Nat :=
  let p := createRequest DB.empty
  let db2 := storeProductData p.2 rows p.1
  let db3 := updateRequestStatus db2 p.2 JobStatus.processing
  (processImages orc csvOk p.2 rows db3, p.2)

/-- HTTP responses the upload handler can send. -/
inductive Response where
  | ok200 (message : String) (requestId : Nat)
  | bad400 (message : String)
  | err500 (message : String)
deriving DecidableEq, Repr

/-- Observable outcome of one call of the upload handler: the response, the
store after the synchronous part, whether the temp file was removed, and
whether the background processing was started. -/
structure UploadOutcome where
  response : Response
  db : DB
  fileRemoved : Bool
  processingStarted : Bool
deriving DecidableEq, Repr

/-- Outcomes of the three durable-store operations the handler awaits before
acknowledging; some msg means the operation rejects with that message. -/
structure PersistOracle where
  createRequestError : Option String
  storeError : Option String
  statusError : Option String
deriving DecidableEq, Repr

/-- uploadDoc: no file gives an immediate 400; otherwise the inner try runs
validation and the three awaited store operations, unlinks the temp file and
fires processImages without awaiting it; any rejection inside the inner try
lands in the catch, which unlinks the temp file and sends a 400 carrying the
rejection's own message. -/
def uploadDoc (file : Option (List CsvRow)) (persist : PersistOracle)
    (db : DB) : UploadOutcome :=
  match file with
  | none => ⟨Response.bad400 "No file uploaded", db, false, false⟩
  | some rows =>
    match validateCSV rows with
    | Except.error msg => ⟨Response.bad400 msg, db, true, false⟩
    | Except.ok _ =>
      match persist.createRequestError with
      | some msg => ⟨Response.bad400 msg, db, true, false⟩
      | none =>
        let p := createRequest db
        match persist.storeError with
        | some msg => ⟨Response.bad400 msg, p.1, true, false⟩
        | none =>
          let db2 := storeProductData p.2 rows p.1
          match persist.statusError with
          | some msg => ⟨Response.bad400 msg, db2, true, false⟩
          | none =>
            let db3 := updateRequestStatus db2 p.2 JobStatus.processing
            ⟨Response.ok200 "File uploaded and processing started" p.2,
              db3, true, true⟩

/-- Validity of one row in the words of the specification: a non-empty
sequence label, a non-empty name, a non-empty URL list, and every URL, after
trimming whitespace, beginning with the literal scheme. -/
def specRowValid (row : CsvRow) : Prop :=
  row.sNo ≠ "" ∧ row.productName ≠ "" ∧ row.inputImageUrls ≠ "" ∧
  ∀ u ∈ jsSplitComma row.inputImageUrls, jsStartsWith (jsTrim u) "https://" = true

instance (row : CsvRow) : Decidable (specRowValid row) := by
  unfold specRowValid
  infer_instance

theorem rowValid_iff (row : CsvRow) : rowValid row = true ↔ specRowValid row := by
  simp [rowValid, specRowValid, Bool.and_eq_true, bne_iff_ne, List.all_eq_true,
    and_assoc]

theorem validateCSV_ok_iff (rows : List CsvRow) :
    validateCSV rows = Except.ok rows ↔ ∀ r ∈ rows, specRowValid r := by
  unfold validateCSV
  by_cases h : rows.all rowValid = true
  · simp only [h, if_true, true_iff]
    intro r hr
    exact (rowValid_iff r).1 (List.all_eq_true.1 h r hr)
  · simp only [h]
    constructor
    · intro hc
      simp at hc
    · intro hall
      exact absurd (List.all_eq_true.2 fun r hr => (rowValid_iff r).2 (hall r hr)) h

theorem validateCSV_error (rows : List CsvRow)
    (h : ¬ ∀ r ∈ rows, specRowValid r) :
    validateCSV rows = Except.error "Invalid CSV format or data" := by
  unfold validateCSV
  have : rows.all rowValid ≠ true := by
    intro hall
    exact h fun r hr => (rowValid_iff r).1 (List.all_eq_true.1 hall r hr)
  simp [this]

/-- C4: validate applied to an empty table (zero rows) succeeds and yields a
sequence of zero validated rows: the empty table is valid. -/
theorem spec_C4_empty_table_valid : validateCSV [] = Except.ok [] := rfl

/-- C5: validate succeeds, returning a row count equal to the input row
count, exactly when every row has a non-empty sequence label, a non-empty
name, and a non-empty URL list in which every URL, once trimmed, begins with
the https scheme; otherwise it fails with the single validation error for
the whole table. -/
theorem spec_C5_all_or_nothing (rows : List CsvRow) :
    ((∃ out, validateCSV rows = Except.ok out ∧ out.length = rows.length) ↔
        ∀ r ∈ rows, specRowValid r) ∧
    ((¬ ∀ r ∈ rows, specRowValid r) →
        validateCSV rows = Except.error "Invalid CSV format or data") := by
  constructor
  · constructor
    · rintro ⟨out, hout, -⟩
      by_contra h
      rw [validateCSV_error rows h] at hout
      exact Except.noConfusion hout
    · intro hall
      exact ⟨rows, (validateCSV_ok_iff rows).2 hall, rfl⟩
  · exact validateCSV_error rows

/-- Closed instance of C5 on a one-row table whose URL is not https. -/
theorem spec_C5_all_or_nothing_witness :
    validateCSV [⟨"1", "p", "http://a"⟩] =
      Except.error "Invalid CSV format or data" :=
  (spec_C5_all_or_nothing [⟨"1", "p", "http://a"⟩]).2 (by decide)

/-- C10: an ingestion request carrying no file is answered 400 with the
message No file uploaded, the store is untouched, the temp-file removal does
not run, and no background processing is started. -/
theorem spec_C10_no_file (persist : PersistOracle) (db : DB) :
    uploadDoc none persist db =
      ⟨Response.bad400 "No file uploaded", db, false, false⟩ := rfl

/-- C9: whenever a file is provided, the uploaded temporary input is removed
before the response goes out, on the success path and on every path through
the inner catch alike. -/
theorem spec_C9_temp_file_removed (rows : List CsvRow)
    (persist : PersistOracle) (db : DB) :
    (uploadDoc (some rows) persist db).fileRemoved = true := by
  rcases persist with ⟨c, s, t⟩
  cases hv : validateCSV rows <;> cases c <;> cases s <;> cases t <;>
    simp [uploadDoc, hv]

/-- Refutation of C8: with a valid one-row file, a failing job-creation
insert is answered 400 carrying the store error's own message, not a 5xx
with a generic message. -/
theorem spec_C8_counterexample :
    (uploadDoc (some [⟨"1", "p", "https://a"⟩])
        ⟨some "connection lost", none, none⟩ DB.empty).response =
      Response.bad400 "connection lost" := by decide

/-- C8 as amended: a durable-store failure during job creation or item/image
creation, occurring before the acknowledgment, lands in the handler's inner
catch, which answers synchronously with a 400 carrying that error's message,
and no background processing is started. -/
theorem spec_C8_persistence_error_as_400 (rows : List CsvRow)
    (persist : PersistOracle) (db : DB) (msg : String)
    (hv : validateCSV rows = Except.ok rows) :
    (persist.createRequestError = some msg →
      (uploadDoc (some rows) persist db).response = Response.bad400 msg ∧
      (uploadDoc (some rows) persist db).processingStarted = false) ∧
    (persist.createRequestError = none → persist.storeError = some msg →
      (uploadDoc (some rows) persist db).response = Response.bad400 msg ∧
      (uploadDoc (some rows) persist db).processingStarted = false) := by
  rcases persist with ⟨c, s, t⟩
  constructor
  · rintro rfl
    simp [uploadDoc, hv]
  · rintro rfl rfl
    simp [uploadDoc, hv]

/-- Closed instance of amended C8 at a failing item-creation insert. -/
theorem spec_C8_persistence_error_as_400_witness :
    (uploadDoc (some [⟨"1", "p", "https://a"⟩]) ⟨none, some "db down", none⟩
        DB.empty).response = Response.bad400 "db down" :=
  ((spec_C8_persistence_error_as_400 [⟨"1", "p", "https://a"⟩]
      ⟨none, some "db down", none⟩ DB.empty "db down" rfl).2 rfl rfl).1

/-- Membership of an image row in a job, in the sense of the matching
subquery of updateImageStatus: some product row of that request carries the
image's product id. -/
def belongsTo (db : DB) (requestId : Nat) (img : ImageRow) : Prop :=
  ∃ p ∈ db.products, p.requestId = requestId ∧ p.id = img.productId

/-- C6: one call of updateImageStatus rewrites, in place, exactly those image
rows of the addressed job whose input URL equals the given URL — every
duplicate included — and leaves every other image row unchanged. -/
theorem spec_C6_update_by_url (db : DB) (requestId : Nat) (url : String)
    (s : ImgStatus) (o : Option String) :
    List.Forall₂ (fun oldImg newImg =>
        (belongsTo db requestId oldImg ∧ oldImg.inputUrl = url →
          newImg = { oldImg with status := s, outputUrl := o }) ∧
        (¬ (belongsTo db requestId oldImg ∧ oldImg.inputUrl = url) →
          newImg = oldImg))
      db.images (updateImageStatus db requestId url s o).images := by
  unfold updateImageStatus
  rw [List.forall₂_map_right_iff]
  rw [List.forall₂_same]
  intro img hmem
  have hcond : (((db.products.filter (fun p => p.requestId == requestId)).map
        (fun p => p.id)).contains img.productId && img.inputUrl == url) = true ↔
      (belongsTo db requestId img ∧ img.inputUrl = url) := by
    simp only [Bool.and_eq_true, List.contains, List.elem_eq_mem,
      decide_eq_true_eq, beq_iff_eq, List.mem_map, List.mem_filter, belongsTo]
    constructor
    · rintro ⟨⟨p, ⟨hp, hpr⟩, hpid⟩, hu⟩
      exact ⟨⟨p, hp, hpr, hpid⟩, hu⟩
    · rintro ⟨⟨p, hp, hpr, hpid⟩, hu⟩
      exact ⟨⟨p, ⟨hp, hpr⟩, hpid⟩, hu⟩
  by_cases hm : belongsTo db requestId img ∧ img.inputUrl = url
  · rw [if_pos (hcond.2 hm)]
    exact ⟨fun _ => rfl, fun hn => absurd hm hn⟩
  · rw [if_neg (fun hb => hm (hcond.1 hb))]
    exact ⟨fun h => absurd h hm, fun _ => rfl⟩

/-- Fuel-free form of the decimal digit expansion behind the printing of a
natural number. -/
def reprAux (n : Nat) : List Char :=
  if h : n / 10 = 0 then [Nat.digitChar (n % 10)]
  else reprAux (n / 10) ++ [Nat.digitChar (n % 10)]
termination_by n
decreasing_by
  exact Nat.div_lt_self (Nat.pos_of_ne_zero fun h0 => h (by simp [h0]))
    (by norm_num)

theorem reprAux_eq (n : Nat) : reprAux n =
    if n / 10 = 0 then [Nat.digitChar (n % 10)]
    else reprAux (n / 10) ++ [Nat.digitChar (n % 10)] := by
  rw [reprAux]
  by_cases h : n / 10 = 0 <;> simp [h]

theorem reprAux_ne_nil (n : Nat) : reprAux n ≠ [] := by
  rw [reprAux_eq]
  by_cases h : n / 10 = 0 <;> simp [h]

theorem toDigitsCore_eq_reprAux (fuel : Nat) : ∀ (n : Nat) (ds : List Char),
    n < fuel → Nat.toDigitsCore 10 fuel n ds = reprAux n ++ ds := by
  induction fuel with
  | zero => intro n ds h; omega
  | succ f ih =>
    intro n ds h
    unfold Nat.toDigitsCore
    by_cases h0 : n / 10 = 0
    · rw [if_pos h0, reprAux_eq, if_pos h0]
      rfl
    · rw [if_neg h0]
      have hpos : 0 < n := Nat.pos_of_ne_zero fun hz => h0 (by simp [hz])
      have hlt : n / 10 < f :=
        Nat.lt_of_lt_of_le (Nat.div_lt_self hpos (by norm_num)) (by omega)
      rw [ih (n / 10) (Nat.digitChar (n % 10) :: ds) hlt, reprAux_eq n,
        if_neg h0]
      simp

theorem repr_eq_reprAux (n : Nat) : Nat.repr n = (reprAux n).asString := by
  unfold Nat.repr Nat.toDigits
  rw [toDigitsCore_eq_reprAux (n + 1) n [] (Nat.lt_succ_self n)]
  simp

theorem digitChar_inj_fin :
    ∀ a b : Fin 10, Nat.digitChar a.val = Nat.digitChar b.val → a = b := by
  decide

theorem digitChar_inj_lt {a b : Nat} (ha : a < 10) (hb : b < 10)
    (h : Nat.digitChar a = Nat.digitChar b) : a = b := by
  have := digitChar_inj_fin ⟨a, ha⟩ ⟨b, hb⟩ h
  exact congrArg Fin.val this

theorem reprAux_inj : ∀ n m : Nat, reprAux n = reprAux m → n = m := by
  intro n
  induction n using Nat.strong_induction_on with
  | _ n ih =>
    intro m h
    rw [reprAux_eq n, reprAux_eq m] at h
    by_cases hn : n / 10 = 0 <;> by_cases hm : m / 10 = 0
    · rw [if_pos hn, if_pos hm] at h
      have hd : n % 10 = m % 10 :=
        digitChar_inj_lt (Nat.mod_lt n (by norm_num)) (Nat.mod_lt m (by norm_num))
          (List.cons.injEq _ _ _ _ ▸ h).1
      omega
    · rw [if_pos hn, if_neg hm] at h
      have hlen := congrArg List.length h
      simp only [List.length_cons, List.length_nil, List.length_append] at hlen
      have hz : (reprAux (m / 10)).length = 0 := by omega
      exact absurd (List.length_eq_zero.1 hz) (reprAux_ne_nil (m / 10))
    · rw [if_neg hn, if_pos hm] at h
      have hlen := congrArg List.length h
      simp only [List.length_cons, List.length_nil, List.length_append] at hlen
      have hz : (reprAux (n / 10)).length = 0 := by omega
      exact absurd (List.length_eq_zero.1 hz) (reprAux_ne_nil (n / 10))
    · rw [if_neg hn, if_neg hm] at h
      have hsp := List.append_inj' h rfl
      have hpos : 0 < n := Nat.pos_of_ne_zero fun hz => hn (by simp [hz])
      have hdiv : n / 10 = m / 10 :=
        ih (n / 10) (Nat.div_lt_self hpos (by norm_num)) (m / 10) hsp.1
      have hd : n % 10 = m % 10 :=
        digitChar_inj_lt (Nat.mod_lt n (by norm_num)) (Nat.mod_lt m (by norm_num))
          (List.cons.injEq _ _ _ _ ▸ hsp.2).1
      omega

theorem natRepr_inj {n m : Nat} (h : Nat.repr n = Nat.repr m) : n = m := by
  rw [repr_eq_reprAux, repr_eq_reprAux] at h
  exact reprAux_inj n m (congrArg String.data h)

theorem mkOutputUrl_inj {t1 t2 : Nat} (h : mkOutputUrl t1 = mkOutputUrl t2) :
    t1 = t2 := by
  unfold mkOutputUrl at h
  have hd := congrArg String.data h
  simp only [String.data_append] at hd
  have h1 := List.append_cancel_left (List.append_cancel_right hd)
  exact natRepr_inj (String.ext h1)

/-- Refutation of C7: one job with two URLs, both transformer calls succeed
while the millisecond clock does not advance between them; the two calls
return the same output-URL string and the job still completes. -/
theorem spec_C7_counterexample :
    (pipeline (fun _ => Except.ok 5) true
        [⟨"1", "p", "https://a,https://b"⟩]).1.db.images.map ImageRow.outputUrl =
      [some "https://compressed-image-url.com/5.jpg",
        some "https://compressed-image-url.com/5.jpg"] ∧
    getRequestStatus (pipeline (fun _ => Except.ok 5) true
        [⟨"1", "p", "https://a,https://b"⟩]).1.db 0 =
      some JobStatus.completed := by
  decide

/-- C7 as amended: two successful transformer calls return distinct
output-URL strings provided the millisecond clock values they observe are
distinct. -/
theorem spec_C7_distinct_outputs (t1 t2 : Nat) (h : t1 ≠ t2) :
    compressImage (Except.ok t1) ≠ compressImage (Except.ok t2) := by
  simp only [compressImage, ne_eq, Except.ok.injEq]
  intro he
  exact h (mkOutputUrl_inj he)

/-- Closed instance of amended C7 at clock values 0 and 1. -/
theorem spec_C7_distinct_outputs_witness :
    compressImage (Except.ok 0) ≠ compressImage (Except.ok 1) :=
  spec_C7_distinct_outputs 0 1 (by decide)

/-- Effect of one successful updateImageStatus call on one image row, once
the ownership test is known to pass: a row carrying the URL is completed
with the output URL, any other row is untouched. -/
def markOneImg (url out : String) (img : ImageRow) : ImageRow :=
  if img.inputUrl == url
  then { img with status := ImgStatus.completed, outputUrl := some out }
  else img

/-- The same effect on the whole images table. -/
def markUrl (url out : String) (imgs : List ImageRow) : List ImageRow :=
  imgs.map (markOneImg url out)

theorem markOneImg_productId (url out : String) (img : ImageRow) :
    (markOneImg url out img).productId = img.productId := by
  unfold markOneImg
  split <;> rfl

theorem markOneImg_inputUrl (url out : String) (img : ImageRow) :
    (markOneImg url out img).inputUrl = img.inputUrl := by
  unfold markOneImg
  split <;> rfl

theorem markOneImg_of_eq (url out : String) (img : ImageRow)
    (hu : img.inputUrl = url) :
    markOneImg url out img =
      { img with status := ImgStatus.completed, outputUrl := some out } := by
  unfold markOneImg
  rw [if_pos (by simp [hu])]

theorem markOneImg_of_ne (url out : String) (img : ImageRow)
    (hu : img.inputUrl ≠ url) : markOneImg url out img = img := by
  unfold markOneImg
  rw [if_neg (by simp [hu])]

theorem markOneImg_status_of_eq (url out : String) (img : ImageRow)
    (hu : img.inputUrl = url) :
    (markOneImg url out img).status = ImgStatus.completed := by
  rw [markOneImg_of_eq url out img hu]

theorem markOneImg_outputUrl_of_eq (url out : String) (img : ImageRow)
    (hu : img.inputUrl = url) :
    (markOneImg url out img).outputUrl = some out := by
  rw [markOneImg_of_eq url out img hu]

/-- Well-formedness of the store relative to one job: every product row is
owned by the job and every image row points at an existing product row.
Holds for the store a fresh single job runs against. -/
def jobWF (requestId : Nat) (db : DB) : Prop :=
  (∀ p ∈ db.products, p.requestId = requestId) ∧
  (∀ img ∈ db.images, ∃ p ∈ db.products, p.id = img.productId)

theorem updateImageStatus_eq_markUrl (db : DB) (rid : Nat) (url out : String)
    (h : jobWF rid db) :
    updateImageStatus db rid url ImgStatus.completed (some out) =
      { db with images := markUrl url out db.images } := by
  unfold updateImageStatus markUrl
  simp only
  congr 1
  apply List.map_congr_left
  intro img hmem
  have hc : ((db.products.filter (fun p => p.requestId == rid)).map
      (fun p => p.id)).contains img.productId = true := by
    obtain ⟨p, hp, hpid⟩ := h.2 img hmem
    simp only [List.contains, List.elem_eq_mem, decide_eq_true_eq,
      List.mem_map, List.mem_filter]
    exact ⟨p, ⟨hp, by simp [beq_iff_eq, h.1 p hp]⟩, hpid⟩
  rw [hc]
  unfold markOneImg
  simp

theorem jobWF_markUrl (rid : Nat) (url out : String) (db : DB)
    (h : jobWF rid db) :
    jobWF rid { db with images := markUrl url out db.images } := by
  refine ⟨h.1, ?_⟩
  intro img hmem
  unfold markUrl at hmem
  obtain ⟨img0, hmem0, heq⟩ := List.mem_map.1 hmem
  obtain ⟨p, hp, hpid⟩ := h.2 img0 hmem0
  refine ⟨p, hp, ?_⟩
  rw [← heq, markOneImg_productId]
  exact hpid

/-- Whether one oracle outcome is a rejection. -/
def isErr : Except TransformError Nat → Bool
  | Except.error _ => true
  | Except.ok _ => false

/-- Pointwise description of a fully successful run of the inner URL loop:
the trace grows by exactly the URL list, every consulted oracle outcome was
a success, products and requests are untouched, and an image row ends
completed with some output URL exactly when its URL was in the list,
remaining untouched otherwise. -/
theorem processUrls_ok (orc : Nat → Except TransformError Nat) (rid : Nat) :
    ∀ (urls : List String) (st st' : ProcSt) (outs : List String),
    jobWF rid st.db →
    processUrls orc rid urls st = Except.ok (st', outs) →
    jobWF rid st'.db ∧
    st'.db.products = st.db.products ∧
    st'.db.requests = st.db.requests ∧
    st'.trace = st.trace ++ urls ∧
    (∀ i, i < urls.length → isErr (orc (st.trace.length + i)) = false) ∧
    st'.db.images.length = st.db.images.length ∧
    (∀ i (h1 : i < st.db.images.length) (h2 : i < st'.db.images.length),
      (st'.db.images[i]).productId = (st.db.images[i]).productId ∧
      (st'.db.images[i]).inputUrl = (st.db.images[i]).inputUrl ∧
      ((st.db.images[i]).inputUrl ∈ urls →
        (st'.db.images[i]).status = ImgStatus.completed ∧
        ((st'.db.images[i]).outputUrl).isSome = true) ∧
      ((st.db.images[i]).inputUrl ∉ urls →
        st'.db.images[i] = st.db.images[i])) := by
  intro urls
  induction urls with
  | nil =>
    intro st st' outs hwf hrun
    simp only [processUrls, Except.ok.injEq, Prod.mk.injEq] at hrun
    obtain ⟨rfl, rfl⟩ := hrun
    refine ⟨hwf, rfl, rfl, by simp, by simp, rfl, ?_⟩
    intro i h1 h2
    exact ⟨rfl, rfl, by simp, fun _ => rfl⟩
  | cons url rest ih =>
    intro st st' outs hwf hrun
    simp only [processUrls] at hrun
    cases hc : orc st.trace.length with
    | error e =>
      rw [hc] at hrun
      simp [compressImage] at hrun
    | ok t =>
      rw [hc] at hrun
      simp only [compressImage] at hrun
      cases hrec : processUrls orc rid rest
          ⟨updateImageStatus st.db rid url ImgStatus.completed
            (some (mkOutputUrl t)), st.trace ++ [url]⟩ with
      | error s =>
        rw [hrec] at hrun
        simp at hrun
      | ok q =>
        obtain ⟨stq, outsq⟩ := q
        rw [hrec] at hrun
        simp only [Except.ok.injEq, Prod.mk.injEq] at hrun
        obtain ⟨rfl, rfl⟩ := hrun
        have hdb1 : updateImageStatus st.db rid url ImgStatus.completed
            (some (mkOutputUrl t)) =
            { st.db with images := markUrl url (mkOutputUrl t) st.db.images } :=
          updateImageStatus_eq_markUrl st.db rid url (mkOutputUrl t) hwf
        rw [hdb1] at hrec
        have hwf1 : jobWF rid
            { st.db with images := markUrl url (mkOutputUrl t) st.db.images } :=
          jobWF_markUrl rid url (mkOutputUrl t) st.db hwf
        obtain ⟨hwf2, hprod, hreq, htr, hcalls, hlen, hpt⟩ :=
          ih ⟨{ st.db with images := markUrl url (mkOutputUrl t) st.db.images },
            st.trace ++ [url]⟩ stq outsq hwf1 hrec
        simp only at hprod hreq htr hcalls hlen hpt
    
        refine ⟨hwf2, hprod, hreq, ?_, ?_, ?_, ?_⟩
        · rw [htr, List.append_assoc]
          rfl
        · intro i hi
          cases i with
          | zero =>
            simpa [isErr] using congrArg isErr hc
          | succ j =>
            have hj := hcalls j (by simpa using hi)
            simp only [List.length_append, List.length_cons,
              List.length_nil] at hj
            have harith : st.trace.length + (j + 1) =
                st.trace.length + 1 + j := by omega
            rw [harith]
            exact hj
        · rw [hlen]
          simp [markUrl]
        · intro i h1 h2
          have hlenmark : (markUrl url (mkOutputUrl t) st.db.images).length =
              st.db.images.length := by simp [markUrl]
          have h1m : i < (markUrl url (mkOutputUrl t) st.db.images).length := by
            omega
          obtain ⟨hpid, hurl, hin, hout⟩ := hpt i h1m h2
          have hgm : (markUrl url (mkOutputUrl t) st.db.images)[i] =
              markOneImg url (mkOutputUrl t) (st.db.images[i]) := by
            simp [markUrl]
          have hmurl : ((markUrl url (mkOutputUrl t) st.db.images)[i]).inputUrl =
              (st.db.images[i]).inputUrl := by
            rw [hgm, markOneImg_inputUrl]
          refine ⟨?_, ?_, ?_, ?_⟩
          · rw [hpid, hgm, markOneImg_productId]
          · rw [hurl, hmurl]
          · intro hmem
            cases List.mem_cons.1 hmem with
            | inr hr => exact hin (by rw [hmurl]; exact hr)
            | inl hu =>
              by_cases hr : (st.db.images[i]).inputUrl ∈ rest
              · exact hin (by rw [hmurl]; exact hr)
              · have hq := hout (by rw [hmurl]; exact hr)
                rw [hq, hgm]
                refine ⟨markOneImg_status_of_eq url (mkOutputUrl t) _ hu, ?_⟩
                rw [markOneImg_outputUrl_of_eq url (mkOutputUrl t) _ hu]
                rfl
          · intro hnot
            have hu : (st.db.images[i]).inputUrl ≠ url :=
              fun he => hnot (List.mem_cons.2 (Or.inl he))
            have hr : (st.db.images[i]).inputUrl ∉ rest :=
              fun hmm => hnot (List.mem_cons.2 (Or.inr hmm))
            rw [hout (by rw [hmurl]; exact hr), hgm,
              markOneImg_of_ne url (mkOutputUrl t) _ hu]

/-- Pointwise description of an aborted run of the inner URL loop: there is
a first rejected call, at position k of the URL list; the trace stops right
after it, the image rows of the URLs strictly before it are completed, and
every other image row is untouched. -/
theorem processUrls_err (orc : Nat → Except TransformError Nat) (rid : Nat) :
    ∀ (urls : List String) (st st'' : ProcSt),
    jobWF rid st.db →
    processUrls orc rid urls st = Except.error st'' →
    ∃ k, k < urls.length ∧
      isErr (orc (st.trace.length + k)) = true ∧
      (∀ j, j < k → isErr (orc (st.trace.length + j)) = false) ∧
      st''.trace = st.trace ++ urls.take (k + 1) ∧
      st''.db.products = st.db.products ∧
      st''.db.requests = st.db.requests ∧
      st''.db.images.length = st.db.images.length ∧
      (∀ i (h1 : i < st.db.images.length) (h2 : i < st''.db.images.length),
        (st''.db.images[i]).productId = (st.db.images[i]).productId ∧
        (st''.db.images[i]).inputUrl = (st.db.images[i]).inputUrl ∧
        ((st.db.images[i]).inputUrl ∈ urls.take k →
          (st''.db.images[i]).status = ImgStatus.completed ∧
          ((st''.db.images[i]).outputUrl).isSome = true) ∧
        ((st.db.images[i]).inputUrl ∉ urls.take k →
          st''.db.images[i] = st.db.images[i])) := by
  intro urls
  induction urls with
  | nil =>
    intro st st'' hwf hrun
    simp [processUrls] at hrun
  | cons url rest ih =>
    intro st st'' hwf hrun
    simp only [processUrls] at hrun
    cases hc : orc st.trace.length with
    | error e =>
      rw [hc] at hrun
      simp only [compressImage, Except.error.injEq] at hrun
      subst hrun
      refine ⟨0, by simp, ?_, ?_, ?_, rfl, rfl, rfl, ?_⟩
      · simpa [isErr] using congrArg isErr hc
      · intro j hj
        exact absurd hj (Nat.not_lt_zero j)
      · simp
      · intro i h1 h2
        exact ⟨rfl, rfl, by simp, fun _ => rfl⟩
    | ok t =>
      rw [hc] at hrun
      simp only [compressImage] at hrun
      cases hrec : processUrls orc rid rest
          ⟨updateImageStatus st.db rid url ImgStatus.completed
            (some (mkOutputUrl t)), st.trace ++ [url]⟩ with
      | ok q =>
        rw [hrec] at hrun
        simp at hrun
      | error s =>
        rw [hrec] at hrun
        simp only [Except.error.injEq] at hrun
        subst hrun
        have hdb1 : updateImageStatus st.db rid url ImgStatus.completed
            (some (mkOutputUrl t)) =
            { st.db with images := markUrl url (mkOutputUrl t) st.db.images } :=
          updateImageStatus_eq_markUrl st.db rid url (mkOutputUrl t) hwf
        rw [hdb1] at hrec
        have hwf1 : jobWF rid
            { st.db with images := markUrl url (mkOutputUrl t) st.db.images } :=
          jobWF_markUrl rid url (mkOutputUrl t) st.db hwf
        obtain ⟨k, hk, herr, hbefore, htr, hprod, hreq, hlen, hpt⟩ :=
          ih ⟨{ st.db with images := markUrl url (mkOutputUrl t) st.db.images },
            st.trace ++ [url]⟩ s hwf1 hrec
        simp only at htr hprod hreq hlen hpt herr hbefore
        refine ⟨k + 1, by simpa using hk, ?_, ?_, ?_, hprod, hreq, ?_, ?_⟩
        · simp only [List.length_append, List.length_cons,
            List.length_nil] at herr
          have harith : st.trace.length + (k + 1) =
              st.trace.length + 1 + k := by omega
          rw [harith]
          exact herr
        · intro j hj
          cases j with
          | zero =>
            simpa [isErr] using congrArg isErr hc
          | succ j' =>
            have hj' := hbefore j' (by omega)
            simp only [List.length_append, List.length_cons,
              List.length_nil] at hj'
            have harith : st.trace.length + (j' + 1) =
                st.trace.length + 1 + j' := by omega
            rw [harith]
            exact hj'
        · rw [htr, List.append_assoc]
          rfl
        · rw [hlen]
          simp [markUrl]
        · intro i h1 h2
          have hlenmark : (markUrl url (mkOutputUrl t) st.db.images).length =
              st.db.images.length := by simp [markUrl]
          have h1m : i < (markUrl url (mkOutputUrl t) st.db.images).length := by
            omega
          obtain ⟨hpid, hurl, hin, hout⟩ := hpt i h1m h2
          have hgm : (markUrl url (mkOutputUrl t) st.db.images)[i] =
              markOneImg url (mkOutputUrl t) (st.db.images[i]) := by
            simp [markUrl]
          have hmurl : ((markUrl url (mkOutputUrl t) st.db.images)[i]).inputUrl =
              (st.db.images[i]).inputUrl := by
            rw [hgm, markOneImg_inputUrl]
          have htake : (url :: rest).take (k + 1) = url :: rest.take k :=
            List.take_succ_cons
          refine ⟨?_, ?_, ?_, ?_⟩
          · rw [hpid, hgm, markOneImg_productId]
          · rw [hurl, hmurl]
          · intro hmem
            rw [htake] at hmem
            cases List.mem_cons.1 hmem with
            | inr hr => exact hin (by rw [hmurl]; exact hr)
            | inl hu =>
              by_cases hr : (st.db.images[i]).inputUrl ∈ rest.take k
              · exact hin (by rw [hmurl]; exact hr)
              · have hq := hout (by rw [hmurl]; exact hr)
                rw [hq, hgm]
                refine ⟨markOneImg_status_of_eq url (mkOutputUrl t) _ hu, ?_⟩
                rw [markOneImg_outputUrl_of_eq url (mkOutputUrl t) _ hu]
                rfl
          · intro hnot
            rw [htake] at hnot
            have hu : (st.db.images[i]).inputUrl ≠ url :=
              fun he => hnot (List.mem_cons.2 (Or.inl he))
            have hr : (st.db.images[i]).inputUrl ∉ rest.take k :=
              fun hmm => hnot (List.mem_cons.2 (Or.inr hmm))
            rw [hout (by rw [hmurl]; exact hr), hgm,
              markOneImg_of_ne url (mkOutputUrl t) _ hu]

/-- Pointwise description of a fully successful run of the row loop, in
terms of the flattened URL sequence of the job. -/
theorem processRows_ok (orc : Nat → Except TransformError Nat) (rid : Nat) :
    ∀ (rows : List CsvRow) (st st' : ProcSt) (res : List ResultRow),
    jobWF rid st.db →
    processRows orc rid rows st = Except.ok (st', res) →
    jobWF rid st'.db ∧
    st'.db.products = st.db.products ∧
    st'.db.requests = st.db.requests ∧
    st'.trace = st.trace ++ flatUrls rows ∧
    (∀ i, i < (flatUrls rows).length → isErr (orc (st.trace.length + i)) = false) ∧
    st'.db.images.length = st.db.images.length ∧
    (∀ i (h1 : i < st.db.images.length) (h2 : i < st'.db.images.length),
      (st'.db.images[i]).productId = (st.db.images[i]).productId ∧
      (st'.db.images[i]).inputUrl = (st.db.images[i]).inputUrl ∧
      ((st.db.images[i]).inputUrl ∈ flatUrls rows →
        (st'.db.images[i]).status = ImgStatus.completed ∧
        ((st'.db.images[i]).outputUrl).isSome = true) ∧
      ((st.db.images[i]).inputUrl ∉ flatUrls rows →
        st'.db.images[i] = st.db.images[i])) := by
  intro rows
  induction rows with
  | nil =>
    intro st st' res hwf hrun
    simp only [processRows, Except.ok.injEq, Prod.mk.injEq] at hrun
    obtain ⟨rfl, rfl⟩ := hrun
    refine ⟨hwf, rfl, rfl, by simp [flatUrls], by simp [flatUrls], rfl, ?_⟩
    intro i h1 h2
    exact ⟨rfl, rfl, by simp [flatUrls], fun _ => rfl⟩
  | cons row rest ih =>
    intro st st' res hwf hrun
    simp only [processRows] at hrun
    cases hpu : processUrls orc rid (urlsOf row) st with
    | error s =>
      rw [hpu] at hrun
      simp at hrun
    | ok q =>
      obtain ⟨st1, outs⟩ := q
      rw [hpu] at hrun
      dsimp only at hrun
      cases hpr : processRows orc rid rest st1 with
      | error s =>
        rw [hpr] at hrun
        simp at hrun
      | ok q2 =>
        obtain ⟨st2, rs⟩ := q2
        rw [hpr] at hrun
        simp only [Except.ok.injEq, Prod.mk.injEq] at hrun
        obtain ⟨rfl, rfl⟩ := hrun
        obtain ⟨hwf1, hprod1, hreq1, htr1, hcalls1, hlen1, hpt1⟩ :=
          processUrls_ok orc rid (urlsOf row) st st1 outs hwf hpu
        obtain ⟨hwf2, hprod2, hreq2, htr2, hcalls2, hlen2, hpt2⟩ :=
          ih st1 st2 rs hwf1 hpr
        have hflat : flatUrls (row :: rest) = urlsOf row ++ flatUrls rest := by
          simp [flatUrls]
        have htr1len : st1.trace.length = st.trace.length + (urlsOf row).length := by
          rw [htr1]
          simp
        refine ⟨hwf2, ?_, ?_, ?_, ?_, ?_, ?_⟩
        · rw [hprod2, hprod1]
        · rw [hreq2, hreq1]
        · rw [htr2, htr1, hflat, List.append_assoc]
        · intro i hi
          rw [hflat, List.length_append] at hi
          by_cases hlt : i < (urlsOf row).length
          · exact hcalls1 i hlt
          · have hj : i - (urlsOf row).length < (flatUrls rest).length := by
              omega
            have := hcalls2 (i - (urlsOf row).length) hj
            rw [htr1len] at this
            have harith : st.trace.length + (urlsOf row).length +
                (i - (urlsOf row).length) = st.trace.length + i := by omega
            rw [harith] at this
            exact this
        · rw [hlen2, hlen1]
        · intro i h1 h2
          have h1m : i < st1.db.images.length := by omega
          obtain ⟨hpid1, hurl1, hin1, hout1⟩ := hpt1 i h1 h1m
          obtain ⟨hpid2, hurl2, hin2, hout2⟩ := hpt2 i h1m h2
          refine ⟨?_, ?_, ?_, ?_⟩
          · rw [hpid2, hpid1]
          · rw [hurl2, hurl1]
          · intro hmem
            rw [hflat] at hmem
            cases List.mem_append.1 hmem with
            | inl hu =>
              by_cases hr : (st.db.images[i]).inputUrl ∈ flatUrls rest
              · exact hin2 (by rw [hurl1]; exact hr)
              · have hq := hout2 (by rw [hurl1]; exact hr)
                rw [hq]
                exact hin1 hu
            | inr hr => exact hin2 (by rw [hurl1]; exact hr)
          · intro hnot
            rw [hflat] at hnot
            have hu : (st.db.images[i]).inputUrl ∉ urlsOf row :=
              fun hmm => hnot (List.mem_append.2 (Or.inl hmm))
            have hr : (st.db.images[i]).inputUrl ∉ flatUrls rest :=
              fun hmm => hnot (List.mem_append.2 (Or.inr hmm))
            rw [hout2 (by rw [hurl1]; exact hr), hout1 hu]

/-- Pointwise description of an aborted run of the row loop: there is a
first rejected call, at position k of the flattened URL sequence; the trace
stops right after it, the image rows of URLs strictly before it are
completed, and every other image row is untouched. -/
theorem processRows_err (orc : Nat → Except TransformError Nat) (rid : Nat) :
    ∀ (rows : List CsvRow) (st st'' : ProcSt),
    jobWF rid st.db →
    processRows orc rid rows st = Except.error st'' →
    ∃ k, k < (flatUrls rows).length ∧
      isErr (orc (st.trace.length + k)) = true ∧
      (∀ j, j < k → isErr (orc (st.trace.length + j)) = false) ∧
      st''.trace = st.trace ++ (flatUrls rows).take (k + 1) ∧
      st''.db.products = st.db.products ∧
      st''.db.requests = st.db.requests ∧
      st''.db.images.length = st.db.images.length ∧
      (∀ i (h1 : i < st.db.images.length) (h2 : i < st''.db.images.length),
        (st''.db.images[i]).productId = (st.db.images[i]).productId ∧
        (st''.db.images[i]).inputUrl = (st.db.images[i]).inputUrl ∧
        ((st.db.images[i]).inputUrl ∈ (flatUrls rows).take k →
          (st''.db.images[i]).status = ImgStatus.completed ∧
          ((st''.db.images[i]).outputUrl).isSome = true) ∧
        ((st.db.images[i]).inputUrl ∉ (flatUrls rows).take k →
          st''.db.images[i] = st.db.images[i])) := by
  intro rows
  induction rows with
  | nil =>
    intro st st'' hwf hrun
    simp [processRows] at hrun
  | cons row rest ih =>
    intro st st'' hwf hrun
    simp only [processRows] at hrun
    have hflat : flatUrls (row :: rest) = urlsOf row ++ flatUrls rest := by
      simp [flatUrls]
    cases hpu : processUrls orc rid (urlsOf row) st with
    | error s =>
      rw [hpu] at hrun
      simp only [Except.error.injEq] at hrun
      subst hrun
      obtain ⟨k, hk, herr, hbefore, htr, hprod, hreq, hlen, hpt⟩ :=
        processUrls_err orc rid (urlsOf row) st s hwf hpu
      refine ⟨k, ?_, herr, hbefore, ?_, hprod, hreq, hlen, ?_⟩
      · rw [hflat, List.length_append]
        omega
      · rw [htr, hflat, List.take_append_of_le_length (by omega)]
      · intro i h1 h2
        obtain ⟨hpid, hurl, hin, hout⟩ := hpt i h1 h2
        rw [hflat, List.take_append_of_le_length (by omega : k ≤ (urlsOf row).length)]
        exact ⟨hpid, hurl, hin, hout⟩
    | ok q =>
      obtain ⟨st1, outs⟩ := q
      rw [hpu] at hrun
      dsimp only at hrun
      cases hpr : processRows orc rid rest st1 with
      | ok q2 =>
        obtain ⟨st2, rs⟩ := q2
        rw [hpr] at hrun
        simp at hrun
      | error s =>
        rw [hpr] at hrun
        simp only [Except.error.injEq] at hrun
        subst hrun
        obtain ⟨hwf1, hprod1, hreq1, htr1, hcalls1, hlen1, hpt1⟩ :=
          processUrls_ok orc rid (urlsOf row) st st1 outs hwf hpu
        obtain ⟨k, hk, herr, hbefore, htr2, hprod2, hreq2, hlen2, hpt2⟩ :=
          ih st1 s hwf1 hpr
        have htr1len : st1.trace.length =
            st.trace.length + (urlsOf row).length := by
          rw [htr1]
          simp
        refine ⟨(urlsOf row).length + k, ?_, ?_, ?_, ?_, ?_, ?_, ?_, ?_⟩
        · rw [hflat, List.length_append]
          omega
        · rw [htr1len] at herr
          have harith : st.trace.length + ((urlsOf row).length + k) =
              st.trace.length + (urlsOf row).length + k := by omega
          rw [harith]
          exact herr
        · intro j hj
          by_cases hlt : j < (urlsOf row).length
          · exact hcalls1 j hlt
          · have hj' := hbefore (j - (urlsOf row).length) (by omega)
            rw [htr1len] at hj'
            have harith : st.trace.length + (urlsOf row).length +
                (j - (urlsOf row).length) = st.trace.length + j := by omega
            rw [harith] at hj'
            exact hj'
        · rw [htr2, htr1, hflat]
          have harith : (urlsOf row).length + k + 1 =
              (urlsOf row).length + (k + 1) := by omega
          rw [harith, List.take_append, List.append_assoc]
        · rw [hprod2, hprod1]
        · rw [hreq2, hreq1]
        · rw [hlen2, hlen1]
        · intro i h1 h2
          have h1m : i < st1.db.images.length := by omega
          obtain ⟨hpid1, hurl1, hin1, hout1⟩ := hpt1 i h1 h1m
          obtain ⟨hpid2, hurl2, hin2, hout2⟩ := hpt2 i h1m h2
          have htake : (flatUrls (row :: rest)).take ((urlsOf row).length + k) =
              urlsOf row ++ (flatUrls rest).take k := by
            rw [hflat, List.take_append]
          refine ⟨?_, ?_, ?_, ?_⟩
          · rw [hpid2, hpid1]
          · rw [hurl2, hurl1]
          · intro hmem
            rw [htake] at hmem
            cases List.mem_append.1 hmem with
            | inl hu =>
              by_cases hr : (st.db.images[i]).inputUrl ∈ (flatUrls rest).take k
              · exact hin2 (by rw [hurl1]; exact hr)
              · have hq := hout2 (by rw [hurl1]; exact hr)
                rw [hq]
                exact hin1 hu
            | inr hr => exact hin2 (by rw [hurl1]; exact hr)
          · intro hnot
            rw [htake] at hnot
            have hu : (st.db.images[i]).inputUrl ∉ urlsOf row :=
              fun hmm => hnot (List.mem_append.2 (Or.inl hmm))
            have hr : (st.db.images[i]).inputUrl ∉ (flatUrls rest).take k :=
              fun hmm => hnot (List.mem_append.2 (Or.inr hmm))
            rw [hout2 (by rw [hurl1]; exact hr), hout1 hu]

/-- What storeProductData adds: requests and the request id sequence are
untouched, existing rows persist, every new product row is owned by the job,
every new image row is pending with no output URL, carries a URL of the
flattened sequence and points at a product row of the job, and every URL of
the flattened sequence received at least one image row. -/
theorem storeProductData_spec (rid : Nat) :
    ∀ (rows : List CsvRow) (db : DB),
    (storeProductData rid rows db).requests = db.requests ∧
    (storeProductData rid rows db).nextRequestId = db.nextRequestId ∧
    (∀ p ∈ db.products, p ∈ (storeProductData rid rows db).products) ∧
    (∀ p ∈ (storeProductData rid rows db).products,
      p ∈ db.products ∨ p.requestId = rid) ∧
    (∀ img ∈ db.images, img ∈ (storeProductData rid rows db).images) ∧
    (∀ img ∈ (storeProductData rid rows db).images,
      img ∈ db.images ∨
      (img.status = ImgStatus.pending ∧ img.outputUrl = none ∧
        img.inputUrl ∈ flatUrls rows ∧
        ∃ p ∈ (storeProductData rid rows db).products,
          p.id = img.productId ∧ p.requestId = rid)) ∧
    (∀ u ∈ flatUrls rows, ∃ img ∈ (storeProductData rid rows db).images,
      img.inputUrl = u) := by
  intro rows
  induction rows with
  | nil =>
    intro db
    refine ⟨rfl, rfl, fun p hp => hp, fun p hp => Or.inl hp, fun i hi => hi,
      fun i hi => Or.inl hi, ?_⟩
    intro u hu
    simp [flatUrls] at hu
  | cons row rest ih =>
    intro db
    have hflat : flatUrls (row :: rest) = urlsOf row ++ flatUrls rest := by
      simp [flatUrls]
    have hunf : storeProductData rid (row :: rest) db =
        storeProductData rid rest
          { db with nextProductId := db.nextProductId + 1,
                    products := db.products ++ [⟨db.nextProductId, rid, row.sNo, row.productName⟩],
                    images := db.images ++ (urlsOf row).map (fun u => ⟨db.nextProductId, u, ImgStatus.pending, none⟩) } := rfl
    obtain ⟨hreq, hnext, hpgrow, hpnew, higrow, hinew, hiurl⟩ :=
      ih { db with nextProductId := db.nextProductId + 1,
                   products := db.products ++ [⟨db.nextProductId, rid, row.sNo, row.productName⟩],
                   images := db.images ++ (urlsOf row).map (fun u => ⟨db.nextProductId, u, ImgStatus.pending, none⟩) }
    rw [hunf]
    refine ⟨hreq, hnext, ?_, ?_, ?_, ?_, ?_⟩
    · intro p hp
      exact hpgrow p (by simp [hp])
    · intro p hp
      cases hpnew p hp with
      | inr h => exact Or.inr h
      | inl h =>
        cases List.mem_append.1 h with
        | inl h2 => exact Or.inl h2
        | inr h2 =>
          simp at h2
          subst h2
          exact Or.inr rfl
    · intro img hi
      exact higrow img (by simp [hi])
    · intro img hi
      cases hinew img hi with
      | inr h =>
        refine Or.inr ⟨h.1, h.2.1, ?_, h.2.2.2⟩
        rw [hflat]
        exact List.mem_append.2 (Or.inr h.2.2.1)
      | inl h =>
        cases List.mem_append.1 h with
        | inl h2 => exact Or.inl h2
        | inr h2 =>
          obtain ⟨u, hu, heq⟩ := List.mem_map.1 h2
          refine Or.inr ⟨?_, ?_, ?_, ?_⟩
          · rw [← heq]
          · rw [← heq]
          · rw [← heq, hflat]
            exact List.mem_append.2 (Or.inl hu)
          · refine ⟨⟨db.nextProductId, rid, row.sNo, row.productName⟩,
              hpgrow _ (by simp), ?_, rfl⟩
            rw [← heq]
    · intro u hu
      rw [hflat] at hu
      cases List.mem_append.1 hu with
      | inl h =>
        refine ⟨⟨db.nextProductId, u, ImgStatus.pending, none⟩,
          higrow _ ?_, rfl⟩
        simp only [List.mem_append]
        exact Or.inr (List.mem_map.2 ⟨u, h, rfl⟩)
      | inr h => exact hiurl u h

/-- The store right after the synchronous ingestion steps of one job run
from an empty store: request created, rows stored, status set processing. -/
def ingestDb (rows : List CsvRow) : DB :=
  updateRequestStatus (storeProductData 0 rows (createRequest DB.empty).1) 0
    JobStatus.processing

theorem pipeline_eq (orc : Nat → Except TransformError Nat) (csvOk : Bool)
    (rows : List CsvRow) :
    pipeline orc csvOk rows = (processImages orc csvOk 0 rows (ingestDb rows), 0) :=
  rfl

theorem ingestDb_spec (rows : List CsvRow) :
    jobWF 0 (ingestDb rows) ∧
    (ingestDb rows).requests = [⟨0, JobStatus.processing⟩] ∧
    (∀ img ∈ (ingestDb rows).images,
      img.status = ImgStatus.pending ∧ img.outputUrl = none ∧
      img.inputUrl ∈ flatUrls rows) ∧
    (∀ u ∈ flatUrls rows, ∃ img ∈ (ingestDb rows).images, img.inputUrl = u) := by
  obtain ⟨hreq, hnext, hpgrow, hpnew, higrow, hinew, hiurl⟩ :=
    storeProductData_spec 0 rows (createRequest DB.empty).1
  have himg : (ingestDb rows).images =
      (storeProductData 0 rows (createRequest DB.empty).1).images := rfl
  have hprd : (ingestDb rows).products =
      (storeProductData 0 rows (createRequest DB.empty).1).products := rfl
  refine ⟨⟨?_, ?_⟩, ?_, ?_, ?_⟩
  · intro p hp
    rw [hprd] at hp
    cases hpnew p hp with
    | inl h => simp [createRequest, DB.empty] at h
    | inr h => exact h
  · intro img hi
    rw [himg] at hi
    cases hinew img hi with
    | inl h => simp [createRequest, DB.empty] at h
    | inr h =>
      obtain ⟨p, hp, hpid, -⟩ := h.2.2.2
      exact ⟨p, by rw [hprd]; exact hp, hpid⟩
  · have : (ingestDb rows).requests =
        (storeProductData 0 rows
          (createRequest DB.empty).1).requests.map
          (fun r => if r.id == 0 then { r with status := JobStatus.processing }
            else r) := rfl
    rw [this, hreq]
    rfl
  · intro img hi
    rw [himg] at hi
    cases hinew img hi with
    | inl h => simp [createRequest, DB.empty] at h
    | inr h => exact ⟨h.1, h.2.1, h.2.2.1⟩
  · intro u hu
    obtain ⟨img, hi, heq⟩ := hiurl u hu
    exact ⟨img, by rw [himg]; exact hi, heq⟩

theorem getRequestStatus_update_single (db : DB) (rid : Nat)
    (st0 X : JobStatus) (h : db.requests = [⟨rid, st0⟩]) :
    getRequestStatus (updateRequestStatus db rid X) rid = some X := by
  unfold getRequestStatus updateRequestStatus
  simp [h]

/-- C1: if the per-job processing hits a first rejected transformation, at
position k of the job's flattened URL sequence, the run aborts right there:
exactly the first k+1 URLs are ever attempted — no further URL or row — and
the job's status ends failed. -/
theorem spec_C1_fail_fast (rows : List CsvRow)
    (orc : Nat → Except TransformError Nat) (csvOk : Bool) (k : Nat)
    (hk : k < (flatUrls rows).length)
    (herr : isErr (orc k) = true)
    (hbefore : ∀ j, j < k → isErr (orc j) = false) :
    (pipeline orc csvOk rows).1.trace = (flatUrls rows).take (k + 1) ∧
    getRequestStatus (pipeline orc csvOk rows).1.db
      (pipeline orc csvOk rows).2 = some JobStatus.failed := by
  rw [pipeline_eq]
  obtain ⟨hwf, hreqs, himgspec, hiurl⟩ := ingestDb_spec rows
  simp only [processImages]
  cases hres : processRows orc 0 rows ⟨ingestDb rows, []⟩ with
  | ok q =>
    exfalso
    obtain ⟨st', res⟩ := q
    obtain ⟨-, -, -, -, hcalls, -, -⟩ :=
      processRows_ok orc 0 rows ⟨ingestDb rows, []⟩ st' res hwf hres
    have hx := hcalls k hk
    simp only [List.length_nil, Nat.zero_add] at hx
    rw [hx] at herr
    exact absurd herr (by decide)
  | error s =>
    obtain ⟨k2, hk2, herr2, hbefore2, htr2, hprod2, hreq2, hlen2, hpt2⟩ :=
      processRows_err orc 0 rows ⟨ingestDb rows, []⟩ s hwf hres
    simp only [List.length_nil, Nat.zero_add, List.nil_append] at herr2 hbefore2 htr2
    have hkk : k2 = k := by
      rcases Nat.lt_trichotomy k2 k with h | h | h
      · have := hbefore k2 h
        rw [this] at herr2
        exact absurd herr2 (by decide)
      · exact h
      · have := hbefore2 k h
        rw [this] at herr
        exact absurd herr (by decide)
    subst hkk
    constructor
    · exact htr2
    · have hsreq : s.db.requests = [⟨0, JobStatus.processing⟩] := by
        rw [hreq2]
        exact hreqs
      exact getRequestStatus_update_single s.db 0 JobStatus.processing
        JobStatus.failed hsreq

/-- Closed instance of C1: one row, one URL, the first call rejected. -/
theorem spec_C1_fail_fast_witness :
    (pipeline (fun _ => Except.error TransformError.fetchError) true
        [⟨"1", "p", "https://a"⟩]).1.trace =
      (flatUrls [⟨"1", "p", "https://a"⟩]).take 1 ∧
    getRequestStatus (pipeline (fun _ => Except.error TransformError.fetchError)
        true [⟨"1", "p", "https://a"⟩]).1.db
      (pipeline (fun _ => Except.error TransformError.fetchError) true
        [⟨"1", "p", "https://a"⟩]).2 = some JobStatus.failed :=
  spec_C1_fail_fast [⟨"1", "p", "https://a"⟩]
    (fun _ => Except.error TransformError.fetchError) true 0 (by decide) rfl
    (fun j hj => absurd hj (Nat.not_lt_zero j))

theorem updateRequestStatus_images (db : DB) (id : Nat) (s : JobStatus) :
    (updateRequestStatus db id s).images = db.images := rfl

/-- Refutation of C2: one job with one URL; the transformation succeeds but
the output-CSV write fails, so the catch marks the job failed while every
ImageRef under it is completed. -/
theorem spec_C2_counterexample :
    getRequestStatus (pipeline (fun _ => Except.ok 0) false
        [⟨"1", "p", "https://a"⟩]).1.db 0 = some JobStatus.failed ∧
    (pipeline (fun _ => Except.ok 0) false
        [⟨"1", "p", "https://a"⟩]).1.db.images =
      [⟨0, "https://a", ImgStatus.completed,
        some "https://compressed-image-url.com/0.jpg"⟩] := by
  decide

/-- C2 as amended: once processing ends, a job in terminal state completed
has every ImageRef under it completed; and a job whose run hit a first
rejected transformation — rather than a failed output-CSV write — ends
failed with, provided no URL repeats inside the job, at least one ImageRef
under it not completed. -/
theorem spec_C2_terminal_invariant (rows : List CsvRow)
    (orc : Nat → Except TransformError Nat) (csvOk : Bool) :
    (getRequestStatus (pipeline orc csvOk rows).1.db
        (pipeline orc csvOk rows).2 = some JobStatus.completed →
      ∀ img ∈ (pipeline orc csvOk rows).1.db.images,
        img.status = ImgStatus.completed) ∧
    ((flatUrls rows).Nodup →
      ∀ k, k < (flatUrls rows).length → isErr (orc k) = true →
      (∀ j, j < k → isErr (orc j) = false) →
      getRequestStatus (pipeline orc csvOk rows).1.db
          (pipeline orc csvOk rows).2 = some JobStatus.failed ∧
      ∃ img ∈ (pipeline orc csvOk rows).1.db.images,
        img.status ≠ ImgStatus.completed) := by
  rw [pipeline_eq]
  obtain ⟨hwf, hreqs, himgspec, hiurl⟩ := ingestDb_spec rows
  simp only [processImages]
  cases hres : processRows orc 0 rows ⟨ingestDb rows, []⟩ with
  | ok q =>
    obtain ⟨st', res⟩ := q
    obtain ⟨-, -, hreq2, -, hcalls, hlen2, hpt2⟩ :=
      processRows_ok orc 0 rows ⟨ingestDb rows, []⟩ st' res hwf hres
    dsimp only
    constructor
    · intro hcompleted img hmem
      cases csvOk with
      | false =>
        exfalso
        rw [if_neg (show ¬(false = true) by decide)] at hcompleted
        dsimp only at hcompleted
        rw [getRequestStatus_update_single st'.db 0 JobStatus.processing
          JobStatus.failed (by rw [hreq2]; exact hreqs)] at hcompleted
        simp at hcompleted
      | true =>
        rw [if_pos (show true = true from rfl)] at hmem
        dsimp only at hmem
        rw [updateRequestStatus_images] at hmem
        obtain ⟨i, hi, hieq⟩ := List.mem_iff_getElem.1 hmem
        have hi0 : i < (ingestDb rows).images.length := by
          have hl : st'.db.images.length = (ingestDb rows).images.length := hlen2
          omega
        obtain ⟨-, -, hin, -⟩ := hpt2 i hi0 hi
        have hflatmem : ((ingestDb rows).images[i]).inputUrl ∈ flatUrls rows :=
          (himgspec ((ingestDb rows).images[i]) (List.getElem_mem hi0)).2.2
        rw [← hieq]
        exact (hin hflatmem).1
    · intro hnd k hk herr hbefore
      exfalso
      have hx := hcalls k hk
      simp only [List.length_nil, Nat.zero_add] at hx
      rw [hx] at herr
      exact absurd herr (by decide)
  | error s =>
    obtain ⟨k2, hk2, herr2, hbefore2, htr2, hprod2, hreq2, hlen2, hpt2⟩ :=
      processRows_err orc 0 rows ⟨ingestDb rows, []⟩ s hwf hres
    simp only [List.length_nil, Nat.zero_add, List.nil_append]
      at herr2 hbefore2 htr2
    dsimp only
    have hfailed : getRequestStatus
        (updateRequestStatus s.db 0 JobStatus.failed) 0 =
        some JobStatus.failed :=
      getRequestStatus_update_single s.db 0 JobStatus.processing
        JobStatus.failed (by rw [hreq2]; exact hreqs)
    constructor
    · intro hcompleted
      rw [hfailed] at hcompleted
      simp at hcompleted
    · intro hnd k hk herr hbefore
      have hkk : k2 = k := by
        rcases Nat.lt_trichotomy k2 k with h | h | h
        · have hf := hbefore k2 h
          rw [hf] at herr2
          exact absurd herr2 (by decide)
        · exact h
        · have hf := hbefore2 k h
          rw [hf] at herr
          exact absurd herr (by decide)
      subst hkk
      refine ⟨hfailed, ?_⟩
      obtain ⟨img, hmem, hiurl_eq⟩ :=
        hiurl ((flatUrls rows)[k2]) (List.getElem_mem hk2)
      obtain ⟨j, hj, hjeq⟩ := List.mem_iff_getElem.1 hmem
      have hj2 : j < s.db.images.length := by
        have hl : s.db.images.length = (ingestDb rows).images.length := hlen2
        omega
      obtain ⟨-, -, -, hout⟩ := hpt2 j hj hj2
      have hnotin : ((ingestDb rows).images[j]).inputUrl ∉
          (flatUrls rows).take k2 := by
        rw [hjeq, hiurl_eq]
        intro hmm
        obtain ⟨i, hm, hieq⟩ := List.mem_take_iff_getElem.1 hmm
        have hik : i = k2 := (List.Nodup.getElem_inj_iff hnd).1 hieq
        omega
      have hunch := hout hnotin
      rw [updateRequestStatus_images]
      refine ⟨s.db.images[j], List.getElem_mem hj2, ?_⟩
      rw [hunch]
      have hpend := (himgspec ((ingestDb rows).images[j])
        (List.getElem_mem hj)).1
      rw [hpend]
      simp

/-- Closed instance of amended C2: a transformation rejection on a job with
one URL leaves the job failed and an ImageRef that is not completed. -/
theorem spec_C2_terminal_invariant_witness :
    getRequestStatus (pipeline (fun _ => Except.error TransformError.encodeError)
        true [⟨"1", "p", "https://b"⟩]).1.db
      (pipeline (fun _ => Except.error TransformError.encodeError) true
        [⟨"1", "p", "https://b"⟩]).2 = some JobStatus.failed ∧
    ∃ img ∈ (pipeline (fun _ => Except.error TransformError.encodeError) true
        [⟨"1", "p", "https://b"⟩]).1.db.images,
      img.status ≠ ImgStatus.completed :=
  (spec_C2_terminal_invariant [⟨"1", "p", "https://b"⟩]
      (fun _ => Except.error TransformError.encodeError) true).2
    (by decide) 0 (by decide) rfl (fun j hj => absurd hj (Nat.not_lt_zero j))

/-- Refutation of C3: a job with one URL whose transformation is rejected;
the job is marked failed but the ImageRef stays pending — it is never
mutated to failed as the claim asserts. -/
theorem spec_C3_counterexample :
    (pipeline (fun _ => Except.error TransformError.fetchError) true
        [⟨"1", "p", "https://a"⟩]).1.db.images =
      [⟨0, "https://a", ImgStatus.pending, none⟩] ∧
    getRequestStatus (pipeline (fun _ => Except.error TransformError.fetchError)
        true [⟨"1", "p", "https://a"⟩]).1.db 0 = some JobStatus.failed := by
  decide

/-- C3 as amended: every ImageRef is created pending with no output URL;
once processing ends each ImageRef is either still pending with no output
URL, or completed with an output URL — in particular no ImageRef is ever set
to failed: a URL whose transformation is rejected leaves its ImageRef
pending while the job, not the ImageRef, is marked failed. -/
theorem spec_C3_image_lifecycle (rows : List CsvRow)
    (orc : Nat → Except TransformError Nat) (csvOk : Bool) :
    (∀ img ∈ (ingestDb rows).images,
      img.status = ImgStatus.pending ∧ img.outputUrl = none) ∧
    (∀ img ∈ (pipeline orc csvOk rows).1.db.images,
      (img.status = ImgStatus.pending ∧ img.outputUrl = none) ∨
      (img.status = ImgStatus.completed ∧ img.outputUrl.isSome = true)) := by
  obtain ⟨hwf, hreqs, himgspec, hiurl⟩ := ingestDb_spec rows
  constructor
  · intro img hmem
    exact ⟨(himgspec img hmem).1, (himgspec img hmem).2.1⟩
  · rw [pipeline_eq]
    simp only [processImages]
    cases hres : processRows orc 0 rows ⟨ingestDb rows, []⟩ with
    | ok q =>
      obtain ⟨st', res⟩ := q
      obtain ⟨-, -, -, -, -, hlen2, hpt2⟩ :=
        processRows_ok orc 0 rows ⟨ingestDb rows, []⟩ st' res hwf hres
      dsimp only
      intro img hmem
      have hmem' : img ∈ st'.db.images := by
        cases csvOk with
        | true =>
          rw [if_pos (show true = true from rfl)] at hmem
          dsimp only at hmem
          rw [updateRequestStatus_images] at hmem
          exact hmem
        | false =>
          rw [if_neg (show ¬(false = true) by decide)] at hmem
          dsimp only at hmem
          rw [updateRequestStatus_images] at hmem
          exact hmem
      obtain ⟨i, hi, hieq⟩ := List.mem_iff_getElem.1 hmem'
      have hi0 : i < (ingestDb rows).images.length := by
        have hl : st'.db.images.length = (ingestDb rows).images.length := hlen2
        omega
      obtain ⟨-, -, hin, hout⟩ := hpt2 i hi0 hi
      have hstart := himgspec ((ingestDb rows).images[i]) (List.getElem_mem hi0)
      rw [← hieq]
      by_cases hm : ((ingestDb rows).images[i]).inputUrl ∈ flatUrls rows
      · exact Or.inr (hin hm)
      · rw [hout hm]
        exact Or.inl ⟨hstart.1, hstart.2.1⟩
    | error s =>
      obtain ⟨k2, hk2, herr2, hbefore2, htr2, hprod2, hreq2, hlen2, hpt2⟩ :=
        processRows_err orc 0 rows ⟨ingestDb rows, []⟩ s hwf hres
      dsimp only
      intro img hmem
      rw [updateRequestStatus_images] at hmem
      obtain ⟨i, hi, hieq⟩ := List.mem_iff_getElem.1 hmem
      have hi0 : i < (ingestDb rows).images.length := by
        have hl : s.db.images.length = (ingestDb rows).images.length := hlen2
        omega
      obtain ⟨-, -, hin, hout⟩ := hpt2 i hi0 hi
      have hstart := himgspec ((ingestDb rows).images[i]) (List.getElem_mem hi0)
      rw [← hieq]
      by_cases hm : ((ingestDb rows).images[i]).inputUrl ∈
          (flatUrls rows).take k2
      · exact Or.inr (hin hm)
      · rw [hout hm]
        exact Or.inl ⟨hstart.1, hstart.2.1⟩

/-- Closed instance of amended C3 at a successful one-URL job. -/
theorem spec_C3_image_lifecycle_witness :
    ((⟨0, "https://a", ImgStatus.completed,
        some "https://compressed-image-url.com/3.jpg"⟩ : ImageRow).status =
        ImgStatus.pending ∧
      (⟨0, "https://a", ImgStatus.completed,
        some "https://compressed-image-url.com/3.jpg"⟩ : ImageRow).outputUrl =
        none) ∨
    ((⟨0, "https://a", ImgStatus.completed,
        some "https://compressed-image-url.com/3.jpg"⟩ : ImageRow).status =
        ImgStatus.completed ∧
      ((⟨0, "https://a", ImgStatus.completed,
        some "https://compressed-image-url.com/3.jpg"⟩ : ImageRow).outputUrl).isSome =
        true) :=
  (spec_C3_image_lifecycle [⟨"1", "p", "https://a"⟩] (fun _ => Except.ok 3)
      true).2
    ⟨0, "https://a", ImgStatus.completed,
      some "https://compressed-image-url.com/3.jpg"⟩ (by decide)

/-- A two-image store with a duplicated URL under one product of job 7, used
to instantiate the updateImageStatus characterization. -/
def dbC6 : DB :=
  ⟨1, 2, [], [⟨0, 7, "1", "p"⟩],
    [⟨0, "https://u", ImgStatus.pending, none⟩,
     ⟨0, "https://u", ImgStatus.pending, none⟩]⟩

/-- Closed instance of C6 on a store with a duplicated URL. -/
theorem spec_C6_update_by_url_witness :
    List.Forall₂ (fun oldImg newImg =>
        (belongsTo dbC6 7 oldImg ∧ oldImg.inputUrl = "https://u" →
          newImg = { oldImg with status := ImgStatus.completed, outputUrl := some "o" }) ∧
        (¬ (belongsTo dbC6 7 oldImg ∧ oldImg.inputUrl = "https://u") →
          newImg = oldImg))
      dbC6.images
      (updateImageStatus dbC6 7 "https://u" ImgStatus.completed
        (some "o")).images :=
  spec_C6_update_by_url dbC6 7 "https://u" ImgStatus.completed (some "o")
